import Mathlib

/-!
Verification of the argument-resolution / template-substitution engine of
`assistant.py` (mentat-assistant).

The Python source is shallowly embedded below.  Strings are Lean `String`s;
character-level operations go through `String.data : List Char`, which matches
Python's per-character (code point) semantics of slicing, `len`, and
`str.replace`.  Python `dict`s (which preserve insertion order, and on
assignment of an existing key keep its original position) are embedded as
ordered association lists with `dictInsert` / `dictGet`.  Observable
`logging.warning` calls are counted where a claim depends on them.
-/

/-- Whitespace recognised by Python's `str.strip()` (ASCII subset). -/
def pyIsSpace (c : Char) : Bool :=
  c = ' ' || c = '\t' || c = '\n' || c = '\x0b' || c = '\x0c' || c = '\r'

/-- Python `s.strip()`: remove leading and trailing whitespace. -/
def pyStrip (s : String) : String :=
  ⟨(((s.data.dropWhile pyIsSpace).reverse).dropWhile pyIsSpace).reverse⟩

/-- Scanner for Python `str.replace` with a non-empty pattern: scan left to
right; at each position, if `old` is a prefix of the remaining text, emit
`new` and skip `old.length` characters, else keep one character.  The `Nat`
argument is fuel (any value `≥` the list length gives the intended result);
it only makes the recursion structural. -/
def replaceAux (old new : List Char) : Nat → List Char → List Char
  | _, [] => []
  | 0, s => s
  | fuel + 1, c :: rest =>
    if List.isPrefixOf old (c :: rest) then
      new ++ replaceAux old new fuel (List.drop (old.length - 1) rest)
    else
      c :: replaceAux old new fuel rest

/-- Python `s.replace(old, new)` on character lists.  An empty `old` inserts
`new` before every character and at the end, as in Python. -/
def pyReplace (s old new : List Char) : List Char :=
  if old = [] then
    new ++ List.foldr (fun c acc => c :: (new ++ acc)) [] s
  else
    replaceAux old new s.length s

/-- Python `s.replace(old, new)` on strings. -/
def pyReplaceStr (s old new : String) : String :=
  ⟨pyReplace s.data old.data new.data⟩

/-- Python `d[k] = v` on an insertion-ordered dict: an existing key keeps its
position and gets the new value; a fresh key is appended at the end. -/
def dictInsert : List (String × String) → String → String → List (String × String)
  | [], k, v => [(k, v)]
  | (k', v') :: rest, k, v =>
    if k' = k then (k', v) :: rest else (k', v') :: dictInsert rest k v

/-- Python `d.get(k)` / `k in d` on an insertion-ordered dict. -/
def dictGet : List (String × String) → String → Option String
  | [], _ => none
  | (k', v') :: rest, k => if k' = k then some v' else dictGet rest k

/-- Python `a | b` on dicts: entries of `a`, updated and extended by `b`
(`b` wins on key collision, new keys of `b` are appended in `b`'s order). -/
def dictUnion (a b : List (String × String)) : List (String × String) :=
  b.foldl (fun acc e => dictInsert acc e.1 e.2) a

-- Basic sanity checks of the Python-semantics helpers.
example : pyReplace "aabaa".data "aba".data "b".data = "aba".data := by decide
example : pyReplaceStr "abc" "" "-" = "-a-b-c-" := by decide
example : pyStrip "  hi there\n" = "hi there" := by decide
example : dictGet (dictInsert (dictInsert [] "a" "1") "a" "2") "a" = some "2" := by decide

/-- An `<argument>` element of a command XML file (`id`, `alias`, `question`
attributes), in document order.  (`alias` is a Lean keyword, hence `aliasName`.) -/
structure ArgumentDecl where
  id : String
  aliasName : String
  question : String
deriving DecidableEq

/-- A `<variable>` element (`id`, `argument`, `converter` attributes). -/
structure VariableDecl where
  id : String
  argument : String
  converter : String
deriving DecidableEq

/-- The parsed command XML document: `Assistant.xml_root` viewed through the
element lookups the code performs (`findall("argument")`,
`findall("variable")`, `find("prompt")`, `find("context")`/`findall("include")`).
`prompt = none` models an absent `<prompt>` element; `context = none` models an
absent `<context>` element, `some paths` its `<include path="..."/>` children
in document order. -/
structure XmlDoc where
  arguments : List ArgumentDecl
  varDecls : List VariableDecl
  prompt : Option String
  context : Option (List String)
deriving DecidableEq

/-- The Python exceptions the embedded code paths can raise.
`errorParsingXml` and `fileNotFound` are the two `RuntimeError`s raised by
`Assistant.parse_xml` (the spec's `MalformedSpecError` / `NotFoundError`);
`attributeError` is the `AttributeError` raised by evaluating `None.text`;
`permissionError` / `jsonDecodeError` are the exceptions `open` / `json.load`
raise on an unreadable or undecodable `composer.json`, which
`Converter.__init__` does not catch. -/
inductive PyExc where
  | errorParsingXml
  | fileNotFound
  | attributeError
  | permissionError
  | jsonDecodeError
deriving DecidableEq

/-- `Assistant.parse_xml` (assistant.py lines 68-78).  The file system is
modelled by the argument: `none` = the command file does not exist
(`FileNotFoundError`, re-raised as `RuntimeError("Command definition file not
found: ...")`); `some none` = the file exists but is not well-formed XML
(`ET.ParseError`, re-raised as `RuntimeError("Error parsing XML: ...")`);
`some (some doc)` = the file parses to `doc`. -/
def parse_xml (fs : Option (Option XmlDoc)) : Except PyExc XmlDoc :=
  match fs with
  | none => Except.error PyExc.fileNotFound
  | some none => Except.error PyExc.errorParsingXml
  | some (some doc) => Except.ok doc

/-- The replacement loop of `Assistant.get_prompt` (lines 124-125):
`for search, replace in self.replacements.items(): prompt = prompt.replace(search, replace)`. -/
def renderPrompt (repl : List (String × String)) (template : String) : String :=
  repl.foldl (fun p e => pyReplaceStr p e.1 e.2) template

/-- `Assistant.get_prompt` (lines 120-127):
`prompt = self.xml_root.find("prompt").text.strip()` followed by the
replacement loop.  When the `<prompt>` element is absent, `find` returns
`None` and `.text` raises `AttributeError`. -/
def get_prompt (doc : XmlDoc) (repl : List (String × String)) : Except PyExc String :=
  match doc.prompt with
  | none => Except.error PyExc.attributeError
  | some t => Except.ok (renderPrompt repl (pyStrip t))

/-- The load-then-extract pipeline for the prompt: `parse_xml` followed by
`get_prompt`, as sequenced by `Assistant.run`. -/
def loadPrompt (fs : Option (Option XmlDoc)) (repl : List (String × String)) :
    Except PyExc String :=
  match parse_xml fs with
  | Except.error e => Except.error e
  | Except.ok doc => get_prompt doc repl

/-- Split a `--name=value` option body at the first `=`:
`splitEqList "a=b=c".data = ("a".data, some "b=c".data)`. -/
def splitEqList : List Char → List Char × Option (List Char)
  | [] => ([], none)
  | c :: rest =>
    if c = '=' then ([], some rest)
    else
      let r := splitEqList rest
      (c :: r.1, r.2)

/-- The fragment of `argparse` behaviour `Assistant.process_arguments` relies
on: for each declared long option `--alias`, both the `--alias value` and the
`--alias=value` form set the option, the last occurrence winning.  The result
is an association list queried with `dictGet` (bindings are prepended, so the
first hit is the most recent one).  Tokens that are not recognised long
options are skipped here; real `argparse` exits on them, which is why the
theorems below restrict to `argsWF` inputs. -/
def cliParse (aliases : List String) : List String → List (String × String) → List (String × String)
  | [], acc => acc
  | t :: rest, acc =>
    if List.isPrefixOf ['-', '-'] t.data then
      let sp := splitEqList (t.data.drop 2)
      match sp.2 with
      | some v =>
        if (⟨sp.1⟩ : String) ∈ aliases then
          cliParse aliases rest ((⟨sp.1⟩, ⟨v⟩) :: acc)
        else cliParse aliases rest acc
      | none =>
        if (⟨sp.1⟩ : String) ∈ aliases then
          match rest with
          | v :: rest2 => cliParse aliases rest2 ((⟨sp.1⟩, v) :: acc)
          | [] => acc
        else cliParse aliases rest acc
    else cliParse aliases rest acc

/-- Well-formedness of a CLI argument list for the declared aliases: every
token is a declared `--alias=value`, or a declared `--alias` followed by a
value token not starting with `-`.  On such inputs `cliParse` agrees with
`argparse.parse_args`; on others `argparse` errors out. -/
def argsWF (aliases : List String) : List String → Bool
  | [] => true
  | t :: rest =>
    if List.isPrefixOf ['-', '-'] t.data then
      let sp := splitEqList (t.data.drop 2)
      match sp.2 with
      | some _ => decide ((⟨sp.1⟩ : String) ∈ aliases) && argsWF aliases rest
      | none =>
        decide ((⟨sp.1⟩ : String) ∈ aliases) &&
          match rest with
          | v :: rest2 => !(List.isPrefixOf ['-'] v.data) && argsWF aliases rest2
          | [] => false
    else false

/-- The interactive prompt shown by `process_arguments` for a missing
argument: `input(f"Missing --{alias}. {question}\n")`. -/
def promptMessage (al q : String) : String :=
  "Missing --" ++ al ++ ". " ++ q ++ "\n"

/-- The per-argument value choice of `process_arguments` (lines 92-99):
use the CLI value if present and non-empty (`if value:`), otherwise ask the
user.  `input` is the injected blocking prompt function. -/
def argValue (parsed : List (String × String)) (input : String → String)
    (d : ArgumentDecl) : String :=
  match dictGet parsed d.aliasName with
  | some v => if v = "" then input (promptMessage d.aliasName d.question) else v
  | none => input (promptMessage d.aliasName d.question)

/-- `Assistant.process_arguments` (lines 83-100): declare one `--alias`
option per `<argument>`, parse `self.args`, then for each `<argument>` in
document order record `id → value` in `self.replacements` (empty at this
point of `run`). -/
def process_arguments (decls : List ArgumentDecl) (args : List String)
    (input : String → String) : List (String × String) :=
  let parsed := cliParse (decls.map (fun d => d.aliasName)) args []
  decls.foldl (fun r d => dictInsert r d.id (argValue parsed input d)) []

/-- The slice of `composer.json` that `Converter.resolve_class_path` reads:
the optional `autoload-dev.psr-4` and `autoload.psr-4` sections, each a JSON
object mapping namespace prefixes to base directories (insertion-ordered). -/
structure ComposerData where
  autoloadDevPsr4 : Option (List (String × String))
  autoloadPsr4 : Option (List (String × String))
deriving DecidableEq

/-- The namespace-map construction of `resolve_class_path` (lines 180-195):
start from `{}`, union in `autoload-dev.psr-4` if present, then union in
`autoload.psr-4` if present (so `autoload` wins on key collision). -/
def namespaceMap (d : ComposerData) : List (String × String) :=
  let m1 : List (String × String) :=
    match d.autoloadDevPsr4 with
    | some m => dictUnion [] m
    | none => []
  match d.autoloadPsr4 with
  | some m => dictUnion m1 m
  | none => m1

/-- The possible outcomes of `open(self.composer_json)` + `json.load` in
`Converter.__init__`: file missing (`FileNotFoundError`), file unreadable
(`PermissionError`), readable but not valid JSON (`json.JSONDecodeError`),
or successfully decoded data. -/
inductive FileReadOutcome where
  | missing
  | unreadable
  | badJson
  | ok (data : ComposerData)
deriving DecidableEq

/-- `Converter.__init__` (lines 155-164).  Returns the resulting
`composer_data` together with the number of `logging.warning` calls, or the
exception that propagates: only `FileNotFoundError` is caught (one warning,
`composer_data = None`); `PermissionError` and `json.JSONDecodeError` escape
the constructor. -/
def converterInit : FileReadOutcome → Except PyExc (Option ComposerData × Nat)
  | FileReadOutcome.missing => Except.ok (none, 1)
  | FileReadOutcome.unreadable => Except.error PyExc.permissionError
  | FileReadOutcome.badJson => Except.error PyExc.jsonDecodeError
  | FileReadOutcome.ok d => Except.ok (some d, 0)

/-- The path built by a matching entry in `resolve_class_path` (line 203):
`f"{base_dir}{fqcn[1 + len(prefix):]}.php".replace("\\", "/")` — note the
`.replace` applies to the whole formatted string, base directory included. -/
def loopBuild (fqcn : String) (e : String × String) : String :=
  pyReplaceStr (e.2 ++ (⟨fqcn.data.drop (1 + e.1.data.length)⟩ : String) ++ ".php") "\\" "/"

/-- One iteration of the `resolve_class_path` loop (lines 200-205), on the
accumulator `(match_length, class_path)`. -/
def loopStep (fqcn : String) (acc : Int × Option String) (e : String × String) :
    Int × Option String :=
  if List.isPrefixOf e.1.data (fqcn.data.drop 1) ∧ (e.1.data.length : Int) > acc.1 then
    ((e.1.data.length : Int), some (loopBuild fqcn e))
  else acc

/-- The matching loop of `resolve_class_path` (lines 197-208) over an already
built namespace map: `match_length` starts at `-1`, the entries are scanned
in map iteration order, and the final `class_path` is returned. -/
def resolveLoop (nsMap : List (String × String)) (fqcn : String) : Option String :=
  (nsMap.foldl (loopStep fqcn) ((-1 : Int), (none : Option String))).2

/-- `Converter.resolve_class_path` (lines 177-208): `None` when
`composer_data is None`, otherwise the matching loop over the namespace map
built from the data. -/
def resolve_class_path (comp : Option ComposerData) (fqcn : String) : Option String :=
  match comp with
  | none => none
  | some d => resolveLoop (namespaceMap d) fqcn

/-- `Converter.convert` (lines 166-171): dispatch on the converter name;
only `"resolveClassPath"` is known, every other name warns and returns
`None`. -/
def convert (comp : Option ComposerData) (conv arg : String) : Option String :=
  if conv = "resolveClassPath" then resolve_class_path comp arg else none

/-- One iteration of the `Assistant.resolve_variables` loop (lines 106-116),
on a state of (replacements, warning count): a variable whose referenced
argument is not in the replacements is skipped with a warning; otherwise the
converter runs, a non-`None` result is recorded under the variable's id, and
a `None` result leaves the table unchanged with a warning. -/
def resolveVarStep (comp : Option ComposerData)
    (st : List (String × String) × Nat) (v : VariableDecl) :
    List (String × String) × Nat :=
  match dictGet st.1 v.argument with
  | none => (st.1, st.2 + 1)
  | some a =>
    match convert comp v.converter a with
    | some value => (dictInsert st.1 v.id value, st.2)
    | none => (st.1, st.2 + 1)

/-- `Assistant.resolve_variables` (lines 103-116): fold `resolveVarStep` over
the `<variable>` elements in document order, starting from the current
replacements and zero warnings. -/
def resolve_variables (comp : Option ComposerData) (vars : List VariableDecl)
    (repl : List (String × String)) : List (String × String) × Nat :=
  vars.foldl (resolveVarStep comp) (repl, 0)

/-- `Assistant.get_context` (lines 131-149), instrumented with the number of
`logging.warning` calls: a missing `<context>` node yields `[]`; a path
starting with `$` is looked up (without the `$`) in the replacements and
appended if found, skipped with a warning if not; any other path is appended
verbatim. -/
def contextStep (repl : List (String × String)) (st : List String × Nat)
    (p : String) : List String × Nat :=
  if List.isPrefixOf ['$'] p.data then
    match dictGet repl (⟨p.data.drop 1⟩ : String) with
    | some v => (st.1 ++ [v], st.2)
    | none => (st.1, st.2 + 1)
  else (st.1 ++ [p], st.2)

def get_context (ctx : Option (List String)) (repl : List (String × String)) :
    List String × Nat :=
  match ctx with
  | none => ([], 0)
  | some includes => includes.foldl (contextStep repl) ([], 0)

/-- The per-include resolution rule of `get_context`, as a partial map:
`none` exactly for an unresolved `$`-reference. -/
def resolveInclude (repl : List (String × String)) (p : String) : Option String :=
  if List.isPrefixOf ['$'] p.data then dictGet repl (⟨p.data.drop 1⟩ : String)
  else some p

/-- Modelled from the spec: "among all entries in `namespaceMap` whose prefix
is a literal string-prefix of the stripped identifier, select the one with
the longest prefix (ties broken by first-encountered in map iteration
order)". -/
def specPick (best : Option (String × String)) (e : String × String) :
    Option (String × String) :=
  match best with
  | none => some e
  | some b => if e.1.data.length > b.1.data.length then some e else some b

def specSelect (nsMap : List (String × String)) (stripped : List Char) :
    Option (String × String) :=
  (nsMap.filter (fun e => List.isPrefixOf e.1.data stripped)).foldl specPick none

/-- Modelled from the spec: strip the leading separator, select the matching
entry with `specSelect`, and build `baseDir + remainder + ".php"` where
`remainder` is the stripped identifier after the matched prefix. -/
def specResolve (nsMap : List (String × String)) (fqcn : String) : Option String :=
  match specSelect nsMap (fqcn.data.drop 1) with
  | none => none
  | some e =>
    some (pyReplaceStr (e.2 ++ (⟨(fqcn.data.drop 1).drop e.1.data.length⟩ : String) ++ ".php") "\\" "/")

/-! ### Helper lemmas about the Python-semantics primitives -/

theorem replaceAux_fuel_succ (old new : List Char) :
    ∀ (fuel : Nat) (s : List Char), s.length ≤ fuel →
      replaceAux old new (fuel + 1) s = replaceAux old new fuel s := by
  intro fuel
  induction fuel with
  | zero =>
    intro s hs
    have : s = [] := List.length_eq_zero.mp (Nat.le_zero.mp hs)
    subst this
    rfl
  | succ n ih =>
    intro s hs
    match s with
    | [] => rfl
    | c :: rest =>
      by_cases hp : List.isPrefixOf old (c :: rest)
      · rw [replaceAux, replaceAux, if_pos hp, if_pos hp]
        have hlen : (List.drop (old.length - 1) rest).length ≤ n := by
          have := List.length_drop (old.length - 1) rest
          simp only [List.length_cons] at hs
          omega
        rw [ih _ hlen]
      · rw [replaceAux, replaceAux, if_neg hp, if_neg hp]
        have hlen : rest.length ≤ n := by
          simp only [List.length_cons] at hs; omega
        rw [ih _ hlen]

theorem replaceAux_fuel_ge (old new : List Char) (fuel : Nat) (s : List Char)
    (h : s.length ≤ fuel) :
    replaceAux old new fuel s = replaceAux old new s.length s := by
  obtain ⟨k, rfl⟩ : ∃ k, fuel = s.length + k := ⟨fuel - s.length, by omega⟩
  clear h
  induction k with
  | zero => rfl
  | succ n ih =>
    have : s.length + (n + 1) = (s.length + n) + 1 := by omega
    rw [this, replaceAux_fuel_succ old new (s.length + n) s (by omega), ih]

theorem pyReplace_nil (old new : List Char) (h : old ≠ []) :
    pyReplace [] old new = [] := by
  rw [pyReplace, if_neg h]; rfl

theorem pyReplace_cons_pos (old new : List Char) (c : Char) (rest : List Char)
    (h : old ≠ []) (hp : List.isPrefixOf old (c :: rest)) :
    pyReplace (c :: rest) old new =
      new ++ pyReplace (List.drop (old.length - 1) rest) old new := by
  rw [pyReplace, if_neg h, pyReplace, if_neg h]
  have hlen : rest.length ≤ (c :: rest).length - 1 := by simp
  rw [show (c :: rest).length = rest.length + 1 from by simp, replaceAux, if_pos hp]
  rw [replaceAux_fuel_ge old new rest.length (List.drop (old.length - 1) rest)
    (by simp)]

theorem pyReplace_cons_neg (old new : List Char) (c : Char) (rest : List Char)
    (h : old ≠ []) (hp : ¬ List.isPrefixOf old (c :: rest)) :
    pyReplace (c :: rest) old new = c :: pyReplace rest old new := by
  rw [pyReplace, if_neg h, pyReplace, if_neg h]
  rw [show (c :: rest).length = rest.length + 1 from by simp, replaceAux, if_neg hp]

theorem dictGet_dictInsert (r : List (String × String)) (k v x : String) :
    dictGet (dictInsert r k v) x = if x = k then some v else dictGet r x := by
  induction r with
  | nil =>
    by_cases h : x = k
    · subst h; simp [dictInsert, dictGet]
    · have h' : ¬ k = x := fun hh => h hh.symm
      simp [dictInsert, dictGet, h, h']
  | cons e rest ih =>
    obtain ⟨k', v'⟩ := e
    by_cases hk : k' = k
    · subst hk
      by_cases hx : k' = x
      · subst hx
        simp [dictInsert, dictGet]
      · have hx' : ¬ x = k' := fun hh => hx hh.symm
        simp [dictInsert, dictGet, hx, hx']
    · by_cases hx : k' = x
      · subst hx
        simp [dictInsert, dictGet, hk]
      · simp [dictInsert, dictGet, hk, hx, ih]

theorem infix_append_drop (k a b : List Char) (hk : k ≠ []) (ha : ∀ c ∈ a, c ∉ k) :
    k <:+: a ++ b → k <:+: b := by
  induction a with
  | nil => simp only [List.nil_append]; exact id
  | cons c a' ih =>
    intro h
    rw [List.cons_append, List.infix_cons_iff] at h
    rcases h with h | h
    · exfalso
      obtain ⟨k₀, k', rfl⟩ := List.exists_cons_of_ne_nil hk
      rw [List.cons_prefix_cons] at h
      exact ha c (List.mem_cons_self _ _) (h.1 ▸ List.mem_cons_self k₀ k')
    · exact ih (fun x hx => ha x (List.mem_cons_of_mem _ hx)) h

theorem prefix_pyReplace (old v : List Char) (ho : old ≠ []) (hv : v ≠ []) :
    ∀ (n : Nat) (s k : List Char), s.length ≤ n → k ≠ [] → (∀ c ∈ v, c ∉ k) →
      k <+: pyReplace s old v → k <+: s := by
  intro n
  induction n with
  | zero =>
    intro s k hs hk _ hpre
    have hnil : s = [] := List.length_eq_zero.mp (Nat.le_zero.mp hs)
    subst hnil
    rw [pyReplace_nil old v ho] at hpre
    exact absurd (List.prefix_nil.mp hpre) hk
  | succ n ih =>
    intro s k hs hk hd hpre
    cases s with
    | nil =>
      rw [pyReplace_nil old v ho] at hpre
      exact absurd (List.prefix_nil.mp hpre) hk
    | cons c rest =>
      by_cases hp : List.isPrefixOf old (c :: rest)
      · rw [pyReplace_cons_pos old v c rest ho hp] at hpre
        exfalso
        obtain ⟨k₀, k', rfl⟩ := List.exists_cons_of_ne_nil hk
        obtain ⟨v₀, v', rfl⟩ := List.exists_cons_of_ne_nil hv
        obtain ⟨t, ht⟩ := hpre
        rw [List.cons_append, List.cons_append] at ht
        have hh : k₀ = v₀ := ((List.cons.injEq _ _ _ _).mp ht).1
        exact hd v₀ (List.mem_cons_self _ _) (hh ▸ List.mem_cons_self k₀ k')
      · rw [pyReplace_cons_neg old v c rest ho hp] at hpre
        obtain ⟨k₀, k', rfl⟩ := List.exists_cons_of_ne_nil hk
        rw [List.cons_prefix_cons] at hpre
        obtain ⟨rfl, hpre'⟩ := hpre
        by_cases hk' : k' = []
        · subst hk'
          exact ⟨rest, rfl⟩
        · have hd' : ∀ a ∈ v, a ∉ k' := fun a ha hak' => hd a ha (List.mem_cons_of_mem _ hak')
          have hrest : k' <+: rest :=
            ih rest k' (by simp only [List.length_cons] at hs; omega) hk' hd' hpre'
          exact List.cons_prefix_cons.mpr ⟨rfl, hrest⟩

theorem not_infix_pyReplace (old v : List Char) (ho : old ≠ []) (hv : v ≠ []) :
    ∀ (n : Nat) (s k : List Char), s.length ≤ n → k ≠ [] → (∀ c ∈ v, c ∉ k) →
      ¬ k <:+: s → ¬ k <:+: pyReplace s old v := by
  intro n
  induction n with
  | zero =>
    intro s k hs hk _ _
    have hnil : s = [] := List.length_eq_zero.mp (Nat.le_zero.mp hs)
    subst hnil
    rw [pyReplace_nil old v ho]
    simp [hk]
  | succ n ih =>
    intro s k hs hk hd hns hcontra
    cases s with
    | nil =>
      rw [pyReplace_nil old v ho] at hcontra
      rw [List.infix_nil] at hcontra
      exact hk hcontra
    | cons c rest =>
      by_cases hp : List.isPrefixOf old (c :: rest)
      · rw [pyReplace_cons_pos old v c rest ho hp] at hcontra
        have h1 : k <:+: pyReplace (List.drop (old.length - 1) rest) old v :=
          infix_append_drop k v _ hk hd hcontra
        have hdrop : ¬ k <:+: List.drop (old.length - 1) rest := fun hcon =>
          hns (hcon.trans
            (((List.drop_suffix (old.length - 1) rest).trans (List.suffix_cons c rest)).isInfix))
        exact ih _ k
          (by have := List.length_drop (old.length - 1) rest
              simp only [List.length_cons] at hs; omega)
          hk hd hdrop h1
      · rw [pyReplace_cons_neg old v c rest ho hp] at hcontra
        rw [List.infix_cons_iff] at hcontra
        have hnrest : ¬ k <:+: rest := fun hcon => hns (List.infix_cons hcon)
        rcases hcontra with h | h
        · obtain ⟨k₀, k', rfl⟩ := List.exists_cons_of_ne_nil hk
          rw [List.cons_prefix_cons] at h
          obtain ⟨rfl, h'⟩ := h
          by_cases hk' : k' = []
          · subst hk'
            exact hns (List.IsPrefix.isInfix ⟨rest, rfl⟩)
          · have hpre : k' <+: rest :=
              prefix_pyReplace old v ho hv n rest k'
                (by simp only [List.length_cons] at hs; omega) hk'
                (fun a ha hak' => hd a ha (List.mem_cons_of_mem _ hak')) h'
            exact hns (List.IsPrefix.isInfix (List.cons_prefix_cons.mpr ⟨rfl, hpre⟩))
        · exact ih rest k (by simp only [List.length_cons] at hs; omega) hk hd hnrest h

theorem not_infix_pyReplace_self (k v : List Char) (hk : k ≠ []) (hv : v ≠ [])
    (hd : ∀ c ∈ v, c ∉ k) :
    ∀ (n : Nat) (s : List Char), s.length ≤ n → ¬ k <:+: pyReplace s k v := by
  intro n
  induction n with
  | zero =>
    intro s hs
    have hnil : s = [] := List.length_eq_zero.mp (Nat.le_zero.mp hs)
    subst hnil
    rw [pyReplace_nil k v hk]
    simp [hk]
  | succ n ih =>
    intro s hs hcontra
    cases s with
    | nil =>
      rw [pyReplace_nil k v hk, List.infix_nil] at hcontra
      exact hk hcontra
    | cons c rest =>
      by_cases hp : List.isPrefixOf k (c :: rest)
      · rw [pyReplace_cons_pos k v c rest hk hp] at hcontra
        have h1 : k <:+: pyReplace (List.drop (k.length - 1) rest) k v :=
          infix_append_drop k v _ hk hd hcontra
        exact ih _
          (by have := List.length_drop (k.length - 1) rest
              simp only [List.length_cons] at hs; omega) h1
      · rw [pyReplace_cons_neg k v c rest hk hp] at hcontra
        rw [List.infix_cons_iff] at hcontra
        rcases hcontra with h | h
        · obtain ⟨k₀, k', rfl⟩ := List.exists_cons_of_ne_nil hk
          rw [List.cons_prefix_cons] at h
          obtain ⟨rfl, h'⟩ := h
          by_cases hk' : k' = []
          · subst hk'
            exact hp (List.isPrefixOf_iff_prefix.mpr ⟨rest, rfl⟩)
          · have hpre : k' <+: rest :=
              prefix_pyReplace (k₀ :: k') v hk hv n rest k'
                (by simp only [List.length_cons] at hs; omega) hk'
                (fun a ha hak' => hd a ha (List.mem_cons_of_mem _ hak')) h'
            exact hp (List.isPrefixOf_iff_prefix.mpr (List.cons_prefix_cons.mpr ⟨rfl, hpre⟩))
        · exact ih rest (by simp only [List.length_cons] at hs; omega) h

theorem renderPrompt_not_infix_preserve (k : List Char) (hk : k ≠ []) :
    ∀ (post : List (String × String)) (s : String),
      (∀ e ∈ post, e.1.data ≠ [] ∧ e.2.data ≠ [] ∧ ∀ c ∈ e.2.data, c ∉ k) →
      ¬ k <:+: s.data → ¬ k <:+: (renderPrompt post s).data := by
  intro post
  induction post with
  | nil => intro s _ h; exact h
  | cons e rest ih =>
    intro s hcond hns
    have he := hcond e (List.mem_cons_self _ _)
    have hstep : ¬ k <:+: (pyReplaceStr s e.1 e.2).data :=
      not_infix_pyReplace e.1.data e.2.data he.1 he.2.1 s.data.length s.data k
        le_rfl hk he.2.2 hns
    have hfold : renderPrompt (e :: rest) s = renderPrompt rest (pyReplaceStr s e.1 e.2) := by
      simp [renderPrompt]
    rw [hfold]
    exact ih (pyReplaceStr s e.1 e.2) (fun x hx => hcond x (List.mem_cons_of_mem _ hx)) hstep

/-! ### Claim C4 -/

/-- C4, counterexample to the claim as stated.  In the table
`{"aba": "b"}` no replacement value contains any placeholder id
(`"aba"` is not a substring of `"b"`), yet the placeholder id `"aba"`
appears in `renderPrompt`'s output on the template `"aabaa"`: replacing the
middle occurrence of `"aba"` by `"b"` re-forms `"aba"` by concatenating the
surrounding characters.  So a key may survive even though no value
re-introduces a placeholder id token. -/
theorem get_prompt_roundtrip_counterexample :
    ¬ ("aba".data <:+: "b".data) ∧
      renderPrompt [("aba", "b")] "aabaa" = "aba" ∧
      "aba".data <:+: (renderPrompt [("aba", "b")] "aabaa").data :=
  ⟨by decide, by decide, by decide⟩

/-- C4, amended: substitution is iterative `str.replace` in table insertion
order, and a placeholder id `k` present in the table is absent from the
output under the (necessary, by the counterexample) side conditions that the
id is non-empty and that its own value and every later entry's key and value
are non-empty and share no character with `k`; without those conditions a
later replacement can re-form the id by boundary concatenation even when no
value contains a placeholder id token. -/
theorem get_prompt_roundtrip_amended (pre post : List (String × String))
    (k v template : String)
    (hk : k.data ≠ []) (hv : v.data ≠ [])
    (hd : ∀ c ∈ v.data, c ∉ k.data)
    (hpost : ∀ e ∈ post, e.1.data ≠ [] ∧ e.2.data ≠ [] ∧ ∀ c ∈ e.2.data, c ∉ k.data) :
    ¬ k.data <:+: (renderPrompt (pre ++ (k, v) :: post) template).data := by
  have hsplit : renderPrompt (pre ++ (k, v) :: post) template =
      renderPrompt post (pyReplaceStr (renderPrompt pre template) k v) := by
    simp [renderPrompt]
  rw [hsplit]
  apply renderPrompt_not_infix_preserve k.data hk post _ hpost
  exact not_infix_pyReplace_self k.data v.data hk hv hd _ _ le_rfl

/-- C4, witness: at the table `{"NAME": "x", "CITY": "y"}` and template
`"Hello NAME from CITY"`, the placeholder id `"NAME"` does not occur in the
rendered output. -/
theorem get_prompt_roundtrip_witness :
    ¬ "NAME".data <:+: (renderPrompt [("NAME", "x"), ("CITY", "y")] "Hello NAME from CITY").data :=
  get_prompt_roundtrip_amended [] [("CITY", "y")] "NAME" "x" "Hello NAME from CITY"
    (by decide) (by decide) (by decide) (by decide)

/-! ### Claims C1/C3/C10: the PSR-4 matching loop -/

/-- Loop invariant tying the source loop's `(match_length, class_path)`
accumulator to the spec-side "best entry so far". -/
def selRel (fqcn : String) (b : Option (String × String)) (acc : Int × Option String) : Prop :=
  match b with
  | none => acc = (-1, none)
  | some e => List.isPrefixOf e.1.data (fqcn.data.drop 1) = true ∧
      acc = ((e.1.data.length : Int), some (loopBuild fqcn e))

theorem selRel_fold (fqcn : String) :
    ∀ (l : List (String × String)) (b : Option (String × String)) (acc : Int × Option String),
      selRel fqcn b acc →
      selRel fqcn
        ((l.filter (fun e => List.isPrefixOf e.1.data (fqcn.data.drop 1))).foldl specPick b)
        (l.foldl (loopStep fqcn) acc) := by
  intro l
  induction l with
  | nil => intro b acc h; exact h
  | cons e rest ih =>
    intro b acc h
    by_cases hp : List.isPrefixOf e.1.data (fqcn.data.drop 1)
    · rw [List.filter_cons, if_pos hp, List.foldl_cons, List.foldl_cons]
      apply ih
      cases b with
      | none =>
        have hacc : acc = (-1, none) := h
        subst hacc
        have hcond : List.isPrefixOf e.1.data (fqcn.data.drop 1) ∧
            (e.1.data.length : Int) > (-1 : Int) := ⟨hp, by omega⟩
        show selRel fqcn (specPick none e) (loopStep fqcn (-1, none) e)
        rw [specPick, loopStep, if_pos hcond]
        exact ⟨hp, rfl⟩
      | some b₀ =>
        obtain ⟨hb, hacc⟩ := h
        subst hacc
        show selRel fqcn (specPick (some b₀) e)
          (loopStep fqcn ((b₀.1.data.length : Int), some (loopBuild fqcn b₀)) e)
        rw [specPick, loopStep]
        by_cases hlen : e.1.data.length > b₀.1.data.length
        · have hcast : (e.1.data.length : Int) > (b₀.1.data.length : Int) := by
            exact_mod_cast hlen
          rw [if_pos hlen, if_pos ⟨hp, hcast⟩]
          exact ⟨hp, rfl⟩
        · rw [if_neg hlen, if_neg]
          · exact ⟨hb, rfl⟩
          · intro hcond
            have h2 : (e.1.data.length : Int) > (b₀.1.data.length : Int) := hcond.2
            exact hlen (by exact_mod_cast h2)
    · rw [List.filter_cons, if_neg hp, List.foldl_cons]
      have hstep : loopStep fqcn acc e = acc := by
        rw [loopStep, if_neg]
        intro hcond
        exact hp hcond.1
      rw [hstep]
      exact ih b acc h

/-- The source loop computes exactly the spec-side longest-match selection. -/
theorem resolveLoop_eq_specResolve (nsMap : List (String × String)) (fqcn : String) :
    resolveLoop nsMap fqcn = specResolve nsMap fqcn := by
  have h := selRel_fold fqcn nsMap none ((-1 : Int), (none : Option String)) rfl
  rw [resolveLoop, specResolve, specSelect]
  cases hsel : (nsMap.filter (fun e => List.isPrefixOf e.1.data (fqcn.data.drop 1))).foldl
      specPick none with
  | none =>
    rw [hsel] at h
    have : nsMap.foldl (loopStep fqcn) ((-1 : Int), (none : Option String)) = (-1, none) := h
    rw [this]
  | some e =>
    rw [hsel] at h
    obtain ⟨-, hacc⟩ := h
    rw [hacc]
    show some (loopBuild fqcn e) = _
    rw [loopBuild]
    have hdrop : fqcn.data.drop (1 + e.1.data.length) = (fqcn.data.drop 1).drop e.1.data.length := by
      rw [List.drop_drop]
    rw [hdrop]

theorem resolveLoop_congr_drop (nsMap : List (String × String)) (f g : String)
    (h : f.data.drop 1 = g.data.drop 1) :
    resolveLoop nsMap f = resolveLoop nsMap g := by
  have hstep : loopStep f = loopStep g := by
    funext acc e
    have hd : f.data.drop (1 + e.1.data.length) = g.data.drop (1 + e.1.data.length) := by
      rw [← List.drop_drop, ← List.drop_drop, h]
    rw [loopStep, loopStep, loopBuild, loopBuild, h, hd]
  rw [resolveLoop, resolveLoop, hstep]

/-- C1: `resolve_class_path`'s loop strips the leading character of the
identifier and then selects, among the map entries whose prefix is a literal
string-prefix of the stripped identifier, the longest one (first-encountered
wins on ties — `specSelect` keeps the earlier entry unless a strictly longer
prefix appears); no matching entry yields `None`; and the spec's concrete
scenario evaluates as stated. -/
theorem resolve_class_path_longest_match :
    (∀ (nsMap : List (String × String)) (fqcn : String),
        resolveLoop nsMap fqcn = specResolve nsMap fqcn) ∧
      (∀ (nsMap : List (String × String)) (fqcn : String),
        (∀ e ∈ nsMap, ¬ List.isPrefixOf e.1.data (fqcn.data.drop 1) = true) →
        resolveLoop nsMap fqcn = none) ∧
      resolveLoop [("Acme\\Log\\Writer\\", "./acme-log-writer/lib/"), ("", "/path/")]
        "\\Acme\\Log\\Writer\\File_Writer" = some "./acme-log-writer/lib/File_Writer.php" := by
  refine ⟨resolveLoop_eq_specResolve, ?_, by decide⟩
  intro nsMap fqcn hnone
  rw [resolveLoop_eq_specResolve, specResolve]
  have hfil : nsMap.filter (fun e => List.isPrefixOf e.1.data (fqcn.data.drop 1)) = [] :=
    List.filter_eq_nil_iff.mpr (fun e he => by simpa using hnone e he)
  rw [specSelect, hfil]
  rfl

/-- C1, witness: a map with no matching prefix resolves to `None`. -/
theorem resolve_class_path_longest_match_witness :
    resolveLoop [("Foo\\", "lib/")] "\\Bar\\X" = none :=
  resolve_class_path_longest_match.2.1 [("Foo\\", "lib/")] "\\Bar\\X" (by decide)

/-- C3, counterexample to the claim as stated.  The `.replace("\\", "/")` on
line 203-205 applies to the whole formatted string, so a configured base
directory containing a backslash is rewritten too: with map
`{"A\\": "x\\y/"}` and fqcn `\A\B` the code yields `"x/y/B.php"`, not the
claim's `baseDir + remainder + ".php" = "x\\y/B.php"` with the base
directory's characters untouched. -/
theorem resolve_class_path_basedir_counterexample :
    resolveLoop [("A\\", "x\\y/")] "\\A\\B" = some "x/y/B.php" ∧
      some "x/y/B.php" ≠ some ("x\\y/" ++ "B" ++ ".php") :=
  ⟨by decide, by decide⟩

/-- C3, amended: for the selected entry, the result is obtained by
concatenating the base directory, the remainder of the stripped identifier
after the matched prefix, and `".php"`, and then converting every backslash
in the whole concatenation — including any inside the base directory — to a
forward slash.  No other normalisation (e.g. of a trailing slash) happens. -/
theorem resolve_class_path_build_amended (nsMap : List (String × String)) (fqcn : String)
    (e : String × String)
    (h : specSelect nsMap (fqcn.data.drop 1) = some e) :
    resolveLoop nsMap fqcn =
      some (pyReplaceStr
        (e.2 ++ (⟨(fqcn.data.drop 1).drop e.1.data.length⟩ : String) ++ ".php") "\\" "/") := by
  rw [resolveLoop_eq_specResolve, specResolve, h]

/-- C3, witness: the amended build rule at the counterexample's input. -/
theorem resolve_class_path_build_amended_witness :
    resolveLoop [("A\\", "x\\y/")] "\\A\\B" =
      some (pyReplaceStr
        ("x\\y/" ++ (⟨("\\A\\B".data.drop 1).drop "A\\".data.length⟩ : String) ++ ".php") "\\" "/") :=
  resolve_class_path_build_amended [("A\\", "x\\y/")] "\\A\\B" ("A\\", "x\\y/") (by decide)

/-- C10: the loop evaluates `fqcn[1:]` unconditionally, so the result never
depends on the first character of the identifier — whatever it is, it is
silently dropped before prefix matching and remainder extraction.  In
particular an identifier without a leading backslash loses the first
character of its first namespace segment: with map `{"cme\\": "lib/"}`, the
identifier `Acme\X` (no leading separator) matches the truncated `cme\X`. -/
theorem resolve_class_path_unconditional_strip :
    (∀ (nsMap : List (String × String)) (c₁ c₂ : Char) (rest : List Char),
        resolveLoop nsMap (String.mk (c₁ :: rest)) = resolveLoop nsMap (String.mk (c₂ :: rest))) ∧
      resolveLoop [("cme\\", "lib/")] "Acme\\X" = some "lib/X.php" := by
  refine ⟨?_, by decide⟩
  intro nsMap c₁ c₂ rest
  exact resolveLoop_congr_drop nsMap _ _ rfl

/-! ### Claim C2: missing `<prompt>` element -/

/-- C2, counterexample to the claim as stated: on a well-formed document
without a `<prompt>` element, the pipeline fails with `AttributeError`
(an uncontrolled error from `None.text`), not with the controlled
`RuntimeError` that models `MalformedSpecError`. -/
theorem missing_prompt_counterexample :
    loadPrompt (some (some ⟨[], [], none, none⟩)) [] = Except.error PyExc.attributeError ∧
      loadPrompt (some (some ⟨[], [], none, none⟩)) [] ≠ Except.error PyExc.errorParsingXml :=
  ⟨rfl, fun h => PyExc.noConfusion (Except.error.inj h)⟩

/-- C2, amended: a document whose `<prompt>` element is absent makes the
pipeline fail with an uncontrolled `AttributeError` (which, unlike the two
`RuntimeError`s, is not caught by `Assistant.run`); a missing spec file
fails with the not-found `RuntimeError` and an unparsable document with the
parse-error `RuntimeError`, as the claim says for those two cases. -/
theorem load_prompt_errors_amended :
    (∀ (doc : XmlDoc) (repl : List (String × String)), doc.prompt = none →
        loadPrompt (some (some doc)) repl = Except.error PyExc.attributeError) ∧
      (∀ repl, loadPrompt none repl = Except.error PyExc.fileNotFound) ∧
      (∀ repl, loadPrompt (some none) repl = Except.error PyExc.errorParsingXml) := by
  refine ⟨?_, fun _ => rfl, fun _ => rfl⟩
  intro doc repl h
  simp [loadPrompt, parse_xml, get_prompt, h]

/-- C2, witness: the amended behaviour at a concrete promptless document. -/
theorem load_prompt_errors_witness :
    loadPrompt (some (some ⟨[⟨"CLASS", "class", "Which class?"⟩], [], none, some ["src"]⟩)) [] =
      Except.error PyExc.attributeError :=
  load_prompt_errors_amended.1 ⟨[⟨"CLASS", "class", "Which class?"⟩], [], none, some ["src"]⟩ [] rfl

/-! ### Claim C8: missing / unreadable composer.json -/

/-- C8, counterexample to the claim as stated: an unreadable (but existing)
`composer.json` makes `open` raise `PermissionError`, which
`Converter.__init__` does not catch — construction raises instead of
warning once and degrading to `None` results. -/
theorem converter_init_unreadable_counterexample :
    converterInit FileReadOutcome.unreadable = Except.error PyExc.permissionError ∧
      converterInit FileReadOutcome.unreadable ≠ Except.ok (none, 1) :=
  ⟨rfl, fun h => Except.noConfusion h⟩

/-- C8, amended: only a *missing* `composer.json` (`FileNotFoundError`) is
handled gracefully — construction succeeds with exactly one warning and
`composer_data = None`, and thereafter `resolve_class_path` returns `None`
for every query.  An unreadable or undecodable file raises instead. -/
theorem converter_init_missing_amended :
    converterInit FileReadOutcome.missing = Except.ok (none, 1) ∧
      ∀ fqcn : String, resolve_class_path none fqcn = none :=
  ⟨rfl, fun _ => rfl⟩

/-! ### Claim C7: namespace-map union -/

theorem dictGet_eq_none_of_not_mem (l : List (String × String)) (x : String)
    (h : x ∉ l.map Prod.fst) : dictGet l x = none := by
  induction l with
  | nil => rfl
  | cons e rest ih =>
    have hx : ¬ e.1 = x := fun he =>
      h (he ▸ List.mem_map_of_mem Prod.fst (List.mem_cons_self e rest))
    rw [dictGet]
    rw [if_neg hx]
    exact ih (fun hm => h (List.mem_cons_of_mem _ hm))

theorem dictGet_isSome_of_mem (l : List (String × String)) (x : String)
    (h : x ∈ l.map Prod.fst) : ∃ v, dictGet l x = some v := by
  induction l with
  | nil => cases h
  | cons e rest ih =>
    by_cases hx : e.1 = x
    · exact ⟨e.2, by rw [dictGet, if_pos hx]⟩
    · have : x ∈ rest.map Prod.fst := by
        rcases List.mem_cons.mp h with h' | h'
        · exact absurd h'.symm hx
        · exact h'
      obtain ⟨v, hv⟩ := ih this
      exact ⟨v, by rw [dictGet, if_neg hx]; exact hv⟩

theorem dictGet_dictUnion (b : List (String × String)) :
    ∀ (a : List (String × String)) (k : String), (b.map Prod.fst).Nodup →
      dictGet (dictUnion a b) k =
        match dictGet b k with
        | some v => some v
        | none => dictGet a k := by
  induction b with
  | nil => intro a k _; rfl
  | cons e rest ih =>
    intro a k hnodup
    have hnodup' := List.nodup_cons.mp hnodup
    have hfold : dictUnion a (e :: rest) = dictUnion (dictInsert a e.1 e.2) rest := rfl
    rw [hfold, ih (dictInsert a e.1 e.2) k hnodup'.2]
    by_cases hk : e.1 = k
    · subst hk
      have hrest : dictGet rest e.1 = none :=
        dictGet_eq_none_of_not_mem rest e.1 hnodup'.1
      rw [hrest, dictGet_dictInsert, if_pos rfl, dictGet, if_pos rfl]
    · rw [show dictGet (e :: rest) k = dictGet rest k from by rw [dictGet, if_neg hk]]
      cases hr : dictGet rest k with
      | some v => rfl
      | none => rw [dictGet_dictInsert, if_neg (fun h => hk h.symm)]

/-- C7: with both autoload sections present, the namespace map reads the
dev/test section first and overlays it with the production section — a key
present in both resolves to the production base directory, and a key absent
from production resolves to its dev/test value. -/
theorem namespace_map_production_overrides (cfg : ComposerData)
    (dev prod : List (String × String))
    (hdev : cfg.autoloadDevPsr4 = some dev) (hprod : cfg.autoloadPsr4 = some prod)
    (hnd : (dev.map Prod.fst).Nodup) (hnp : (prod.map Prod.fst).Nodup) :
    ∀ k : String,
      (k ∈ prod.map Prod.fst → dictGet (namespaceMap cfg) k = dictGet prod k) ∧
      (k ∉ prod.map Prod.fst → dictGet (namespaceMap cfg) k = dictGet dev k) := by
  intro k
  have hmap : namespaceMap cfg = dictUnion (dictUnion [] dev) prod := by
    rw [namespaceMap, hdev, hprod]
  have hdevGet : dictGet (dictUnion [] dev) k = dictGet dev k := by
    rw [dictGet_dictUnion dev [] k hnd]
    cases hd : dictGet dev k with
    | some v => rfl
    | none => rfl
  constructor
  · intro hmem
    obtain ⟨v, hv⟩ := dictGet_isSome_of_mem prod k hmem
    rw [hmap, dictGet_dictUnion prod _ k hnp, hv]
  · intro hnmem
    have hpnone : dictGet prod k = none := dictGet_eq_none_of_not_mem prod k hnmem
    rw [hmap, dictGet_dictUnion prod _ k hnp, hpnone, hdevGet]

/-- C7, witness: key `"P\\"` is in both sections and resolves to the
production base directory; key `"D\\"` is only in dev/test and resolves to
its dev/test value. -/
theorem namespace_map_production_overrides_witness :
    dictGet (namespaceMap ⟨some [("P\\", "dev/"), ("D\\", "d/")], some [("P\\", "prod/")]⟩) "P\\" =
      dictGet [("P\\", "prod/")] "P\\" :=
  (namespace_map_production_overrides
      ⟨some [("P\\", "dev/"), ("D\\", "d/")], some [("P\\", "prod/")]⟩
      [("P\\", "dev/"), ("D\\", "d/")] [("P\\", "prod/")]
      rfl rfl (by decide) (by decide) "P\\").1 (by decide)

/-! ### Claim C6: context rendering -/

theorem length_filterMap_sub (f : String → Option String) (l : List String) :
    (l.filterMap f).length = l.length - (l.filter (fun x => (f x).isNone)).length := by
  induction l with
  | nil => rfl
  | cons x rest ih =>
    have hle := List.length_filter_le (fun x => (f x).isNone) rest
    cases hf : f x with
    | some v =>
      simp [List.filterMap_cons, hf, List.filter_cons, ih]
      omega
    | none =>
      simp [List.filterMap_cons, hf, List.filter_cons, ih]

theorem get_context_foldl (repl : List (String × String)) :
    ∀ (includes : List String) (acc : List String × Nat),
      includes.foldl (contextStep repl) acc =
        (acc.1 ++ includes.filterMap (resolveInclude repl),
         acc.2 + (includes.filter (fun p => (resolveInclude repl p).isNone)).length) := by
  intro includes
  induction includes with
  | nil => intro acc; simp
  | cons p rest ih =>
    intro acc
    rw [List.foldl_cons, ih]
    by_cases hp : List.isPrefixOf ['$'] p.data
    · cases hval : dictGet repl (⟨p.data.drop 1⟩ : String) with
      | some v =>
        simp only [contextStep, hp, if_pos, hval, resolveInclude, List.filterMap_cons,
          List.filter_cons, Option.isNone_some, Bool.false_eq_true, if_neg, if_true]
        simp [hval, hp]
      | none =>
        simp only [contextStep, hp, hval, resolveInclude, List.filterMap_cons,
          List.filter_cons]
        simp [hval, hp]
        omega
    · simp only [contextStep, hp, resolveInclude, List.filterMap_cons, List.filter_cons]
      simp [hp]

/-- C6: `get_context` emits entries in declared include order — it equals
the include list filtered-and-mapped through the per-include resolution rule
(`$`-paths resolve wholesale through the table, unresolved ones are dropped,
other paths pass verbatim) — its output length is the number of includes
minus the number of unresolved `$`-references, each unresolved reference is
skipped with exactly one warning, and a missing `<context>` element yields
the empty sequence with no warning and no error. -/
theorem get_context_order_and_length :
    (∀ (includes : List String) (repl : List (String × String)),
        (get_context (some includes) repl).1 = includes.filterMap (resolveInclude repl)) ∧
      (∀ (includes : List String) (repl : List (String × String)),
        (get_context (some includes) repl).1.length =
          includes.length - (includes.filter (fun p => (resolveInclude repl p).isNone)).length) ∧
      (∀ (includes : List String) (repl : List (String × String)),
        (get_context (some includes) repl).2 =
          (includes.filter (fun p => (resolveInclude repl p).isNone)).length) ∧
      (∀ repl : List (String × String), get_context none repl = ([], 0)) := by
  have h1 : ∀ (includes : List String) (repl : List (String × String)),
      get_context (some includes) repl =
        (includes.filterMap (resolveInclude repl),
         (includes.filter (fun p => (resolveInclude repl p).isNone)).length) := by
    intro includes repl
    show includes.foldl (contextStep repl) ([], 0) = _
    rw [get_context_foldl repl includes ([], 0)]
    simp
  exact ⟨fun i r => by rw [h1], fun i r => by rw [h1]; exact length_filterMap_sub _ _,
    fun i r => by rw [h1], fun r => rfl⟩

/-! ### Claim C5: argument resolution -/

theorem dictGet_foldl_insert_of_ne {α : Type} (f g : α → String) :
    ∀ (l : List α) (r : List (String × String)) (x : String),
      (∀ d ∈ l, f d ≠ x) →
      dictGet (l.foldl (fun r d => dictInsert r (f d) (g d)) r) x = dictGet r x := by
  intro l
  induction l with
  | nil => intro r x _; rfl
  | cons d rest ih =>
    intro r x hx
    rw [List.foldl_cons, ih _ x (fun d' hd' => hx d' (List.mem_cons_of_mem _ hd')),
      dictGet_dictInsert, if_neg (fun h => hx d (List.mem_cons_self _ _) h.symm)]

theorem dictGet_foldl_insert_of_mem {α : Type} (f g : α → String) :
    ∀ (l : List α) (r : List (String × String)) (d : α),
      d ∈ l → (l.map f).Nodup →
      dictGet (l.foldl (fun r x => dictInsert r (f x) (g x)) r) (f d) = some (g d) := by
  intro l
  induction l with
  | nil => intro r d hd; cases hd
  | cons e rest ih =>
    intro r d hd hnodup
    rw [List.foldl_cons]
    rcases List.mem_cons.mp hd with rfl | hd'
    · have hnot : ∀ x ∈ rest, f x ≠ f d := by
        intro x hx h
        exact (List.nodup_cons.mp hnodup).1 (h ▸ List.mem_map_of_mem f hx)
      rw [dictGet_foldl_insert_of_ne f g rest _ (f d) hnot, dictGet_dictInsert, if_pos rfl]
    · exact ih _ d hd' (List.nodup_cons.mp hnodup).2

/-- C5: for an `<argument>` declaration processed in document order (with
the spec's invariant that ids are unique, and CLI arguments well-formed for
the declared aliases so that the `argparse` model is faithful): if the CLI
supplies a non-empty value for its alias — in the `--alias value` or the
`--alias=value` form, both covered by `cliParse` — then `id → value` is
recorded; if the alias's value is absent or empty, the injected prompt
function is invoked on the message built from the declaration's question and
its result is recorded under the id. -/
theorem process_arguments_resolution (decls : List ArgumentDecl) (args : List String)
    (input : String → String) (d : ArgumentDecl)
    (hd : d ∈ decls) (hnodup : (decls.map (fun a => a.id)).Nodup)
    (_hwf : argsWF (decls.map (fun a => a.aliasName)) args = true) :
    (∀ v, dictGet (cliParse (decls.map (fun a => a.aliasName)) args []) d.aliasName = some v →
        v ≠ "" →
        dictGet (process_arguments decls args input) d.id = some v) ∧
      ((dictGet (cliParse (decls.map (fun a => a.aliasName)) args []) d.aliasName = none ∨
          dictGet (cliParse (decls.map (fun a => a.aliasName)) args []) d.aliasName = some "") →
        dictGet (process_arguments decls args input) d.id =
          some (input (promptMessage d.aliasName d.question))) := by
  have hmain : dictGet (process_arguments decls args input) d.id =
      some (argValue (cliParse (decls.map (fun a => a.aliasName)) args []) input d) := by
    have := dictGet_foldl_insert_of_mem (fun a => a.id)
      (fun a => argValue (cliParse (decls.map (fun x => x.aliasName)) args []) input a)
      decls [] d hd hnodup
    exact this
  constructor
  · intro v hv hne
    rw [hmain, argValue, hv]
    simp [hne]
  · intro hcase
    rcases hcase with hnone | hempty
    · rw [hmain, argValue, hnone]
    · rw [hmain, argValue, hempty]
      simp

/-- C5, witness: `--class TestClass` (space form) and `--method=start`
(equals form) are both recorded; a third declared argument missing from the
CLI is answered by the injected prompt function. -/
theorem process_arguments_resolution_witness :
    dictGet (process_arguments
        [⟨"CLASS", "class", "Which class?"⟩, ⟨"METHOD", "method", "Which method?"⟩]
        ["--class", "TestClass", "--method=start"] (fun _ => "typed")) "CLASS" =
      some "TestClass" :=
  (process_arguments_resolution
      [⟨"CLASS", "class", "Which class?"⟩, ⟨"METHOD", "method", "Which method?"⟩]
      ["--class", "TestClass", "--method=start"] (fun _ => "typed")
      ⟨"CLASS", "class", "Which class?"⟩ (by decide) (by decide) (by decide)).1
    "TestClass" (by decide) (by decide)

/-! ### Claim C9: variable resolution -/

theorem resolve_vars_preserve (comp : Option ComposerData) :
    ∀ (l : List VariableDecl) (st : List (String × String) × Nat) (x : String),
      (∀ w ∈ l, w.id ≠ x) →
      dictGet (l.foldl (resolveVarStep comp) st).1 x = dictGet st.1 x := by
  intro l
  induction l with
  | nil => intro st x _; rfl
  | cons w rest ih =>
    intro st x hx
    rw [List.foldl_cons, ih _ x (fun w' hw' => hx w' (List.mem_cons_of_mem _ hw'))]
    cases harg : dictGet st.1 w.argument with
    | none => simp only [resolveVarStep, harg]
    | some a =>
      cases hconv : convert comp w.converter a with
      | some val =>
        simp only [resolveVarStep, harg, hconv]
        rw [dictGet_dictInsert, if_neg (fun h => hx w (List.mem_cons_self _ _) h.symm)]
      | none => simp only [resolveVarStep, harg, hconv]

theorem resolve_vars_warnings_mono (comp : Option ComposerData) :
    ∀ (l : List VariableDecl) (st : List (String × String) × Nat),
      st.2 ≤ (l.foldl (resolveVarStep comp) st).2 := by
  intro l
  induction l with
  | nil => intro st; exact le_rfl
  | cons w rest ih =>
    intro st
    refine le_trans ?_ (ih (resolveVarStep comp st w))
    cases harg : dictGet st.1 w.argument with
    | none => simp only [resolveVarStep, harg]; omega
    | some a =>
      cases hconv : convert comp w.converter a with
      | some val => simp only [resolveVarStep, harg, hconv]; exact le_rfl
      | none => simp only [resolveVarStep, harg, hconv]; omega

/-- C9: for a `<variable>` processed in document order (here the one between
`pre` and `post`, with the spec's invariant that no later variable shares
its id): an unknown converter name returns `None`; if the referenced
argument id is not in the table the variable is skipped — its id stays
absent (when not present already) and at least one more warning is logged;
if the converter returns a value the id is recorded with it; if the
converter returns `None` the id stays absent and at least one more warning
is logged.  `resolve_variables` is total — no case aborts the run. -/
theorem resolve_variables_semantics (comp : Option ComposerData)
    (pre post : List VariableDecl) (v : VariableDecl) (repl : List (String × String))
    (hpost : ∀ w ∈ post, w.id ≠ v.id) :
    (∀ name a : String, name ≠ "resolveClassPath" → convert comp name a = none) ∧
      (dictGet (resolve_variables comp pre repl).1 v.argument = none →
        (dictGet (resolve_variables comp pre repl).1 v.id = none →
          dictGet (resolve_variables comp (pre ++ v :: post) repl).1 v.id = none) ∧
          (resolve_variables comp pre repl).2 + 1 ≤
            (resolve_variables comp (pre ++ v :: post) repl).2) ∧
      (∀ a val, dictGet (resolve_variables comp pre repl).1 v.argument = some a →
        convert comp v.converter a = some val →
        dictGet (resolve_variables comp (pre ++ v :: post) repl).1 v.id = some val) ∧
      (∀ a, dictGet (resolve_variables comp pre repl).1 v.argument = some a →
        convert comp v.converter a = none →
        (dictGet (resolve_variables comp pre repl).1 v.id = none →
          dictGet (resolve_variables comp (pre ++ v :: post) repl).1 v.id = none) ∧
          (resolve_variables comp pre repl).2 + 1 ≤
            (resolve_variables comp (pre ++ v :: post) repl).2) := by
  have hsplit : resolve_variables comp (pre ++ v :: post) repl =
      post.foldl (resolveVarStep comp)
        (resolveVarStep comp (resolve_variables comp pre repl) v) := by
    rw [resolve_variables, List.foldl_append, List.foldl_cons]
    rfl
  refine ⟨fun name a h => by rw [convert, if_neg h], ?_, ?_, ?_⟩
  · intro harg
    have hstep : resolveVarStep comp (resolve_variables comp pre repl) v =
        ((resolve_variables comp pre repl).1, (resolve_variables comp pre repl).2 + 1) := by
      simp only [resolveVarStep, harg]
    constructor
    · intro hid
      rw [hsplit, resolve_vars_preserve comp post _ v.id (fun w hw => hpost w hw), hstep]
      exact hid
    · rw [hsplit, hstep]
      exact resolve_vars_warnings_mono comp post
        ((resolve_variables comp pre repl).1, (resolve_variables comp pre repl).2 + 1)
  · intro a val harg hconv
    have hstep : resolveVarStep comp (resolve_variables comp pre repl) v =
        (dictInsert (resolve_variables comp pre repl).1 v.id val,
         (resolve_variables comp pre repl).2) := by
      simp only [resolveVarStep, harg, hconv]
    rw [hsplit, resolve_vars_preserve comp post _ v.id (fun w hw => hpost w hw), hstep,
      dictGet_dictInsert, if_pos rfl]
  · intro a harg hconv
    have hstep : resolveVarStep comp (resolve_variables comp pre repl) v =
        ((resolve_variables comp pre repl).1, (resolve_variables comp pre repl).2 + 1) := by
      simp only [resolveVarStep, harg, hconv]
    constructor
    · intro hid
      rw [hsplit, resolve_vars_preserve comp post _ v.id (fun w hw => hpost w hw), hstep]
      exact hid
    · rw [hsplit, hstep]
      exact resolve_vars_warnings_mono comp post
        ((resolve_variables comp pre repl).1, (resolve_variables comp pre repl).2 + 1)

/-- C9, witness: the variable `CLASS_FILE` referencing argument `CLASS` with
converter `resolveClassPath` is recorded with the resolved class path. -/
theorem resolve_variables_semantics_witness :
    dictGet (resolve_variables (some ⟨none, some [("Assistant\\", "src/Assistant/")]⟩)
        [⟨"CLASS_FILE", "CLASS", "resolveClassPath"⟩]
        [("CLASS", "\\Assistant\\Random")]).1 "CLASS_FILE" =
      some "src/Assistant/Random.php" :=
  (resolve_variables_semantics (some ⟨none, some [("Assistant\\", "src/Assistant/")]⟩)
      [] [] ⟨"CLASS_FILE", "CLASS", "resolveClassPath"⟩ [("CLASS", "\\Assistant\\Random")]
      (by decide)).2.2.1 "\\Assistant\\Random" "src/Assistant/Random.php"
    (by decide) (by decide)
